import Mathlib

/-!
Verification of the deferred-logging facility (src/app/inc/logger.h).

The header defines an ordered severity enumeration `LogLevel`, a CRTP
`Logger` engine whose `log` method filters by severity, reads a coarse
tick counter, and drives a sink through `startMessage` / `appendData` /
`appendString` / `finishMessage`, plus a compile-time string-interning
mechanism that places each distinct (literal, severity) pair in a
severity-specific storage region.

The embedding below is shallow: arguments are modelled as tagged values
(fixed-size scalars carrying their raw bytes, or null-terminated text),
a `log` call is modelled as the list of observable side effects it
performs (tick reads and sink calls), and the mutable logger state is
threaded explicitly through a small step/run machine.
-/

namespace DeferredLogging

/-- The five severities of `enum class LogLevel`, declared in the order
DEBUG, INFO, WARNING, ERROR, OFF, so the underlying values are 0..4. -/
inductive LogLevel
  | DEBUG
  | INFO
  | WARNING
  | ERROR
  | OFF
deriving DecidableEq, Repr

/-- Underlying integer value of the enum, as used by the `<` comparison
in `Logger::log`. -/
def LogLevel.toNat : LogLevel → Nat
  | .DEBUG => 0
  | .INFO => 1
  | .WARNING => 2
  | .ERROR => 3
  | .OFF => 4

/-- The `InternedString` handle: `struct InternedString { const char* str; }`.
The pointer is modelled as a natural-number address. -/
structure InternedString where
  str : Nat
deriving DecidableEq, Repr

/-- A transient call argument: either a fixed-size scalar, carried as its
raw byte representation (so its list length is `sizeof(T)`), or a
null-terminated text value (`const char*`). -/
inductive Arg
  | scalar (bytes : List Nat)
  | text (s : String)
deriving DecidableEq, Repr

/-- One observable side effect of a `log` call: the read of the coarse
tick counter (`m_systick.getCoarseTickCount()`) or one of the four sink
operations of the capability contract. -/
inductive Event
  | tickRead (t : Nat)
  | startMessage (t : Nat)
  | appendData (bytes : List Nat) (len : Nat)
  | appendString (s : String)
  | finishMessage
deriving DecidableEq, Repr

/-- Size in bytes of an `InternedString` (a single pointer) on the
32-bit embedded target. -/
def ptrSize : Nat := 4

/-- Raw little-endian byte representation of a pointer value, as read by
`reinterpret_cast<const uint8_t*>(&argument)` in `sendArgument`. -/
def serializeHandle (addr : Nat) : List Nat :=
  (List.range ptrSize).map (fun i => addr / 256 ^ i % 256)

/-- `Logger::sendArgument`: the generic overload sends a scalar with
`appendData(bytes, sizeof(T))`; the `const char*` overload sends the text
with `appendString`. -/
def sendArgument : Arg → List Event
  | .scalar bytes => [Event.appendData bytes bytes.length]
  | .text s => [Event.appendString s]

/-- `Logger::sendRemainingArguments`: the one-argument overload sends the
sole argument; the variadic overload sends the first argument and recurses
on the rest. -/
def sendRemainingArguments : Arg → List Arg → List Event
  | first, [] => sendArgument first
  | first, a :: rest => sendArgument first ++ sendRemainingArguments a rest

/-- The mutable per-logger state: the single field `LogLevel m_level`. -/
structure LoggerState where
  m_level : LogLevel
deriving DecidableEq, Repr

/-- A freshly constructed logger: `LogLevel m_level = LogLevel::DEBUG`. -/
def LoggerState.init : LoggerState := ⟨LogLevel.DEBUG⟩

/-- The interned-format handle as it enters the argument pipeline: being
a struct, `InternedString` matches the generic `sendArgument` overload,
so its raw bytes (the pointer) are sent with size `sizeof(InternedString)`. -/
def fmtArg (fmt : InternedString) : Arg := Arg.scalar (serializeHandle fmt.str)

/-- Observable side effects of `Logger::log(level, fmt, args...)`:
if `level < m_level` it returns at once; otherwise it reads the tick
counter, calls `startMessage` with that tick, sends the interned format
and then the remaining arguments, and calls `finishMessage`. -/
def logEvents (st : LoggerState) (level : LogLevel) (fmt : InternedString)
    (args : List Arg) (tick : Nat) : List Event :=
  if level.toNat < st.m_level.toNat then []
  else Event.tickRead tick :: Event.startMessage tick ::
    (sendRemainingArguments (fmtArg fmt) args ++ [Event.finishMessage])

/-- `Logger::setLevel(level)`: unconditionally stores the new threshold. -/
def setLevel (st : LoggerState) (l : LogLevel) : LoggerState := { st with m_level := l }

/-- One operation performed on a logger instance: a `setLevel` call or a
`log` call (with the tick value the counter would deliver at that moment). -/
inductive Op
  | setLevel (l : LogLevel)
  | logCall (level : LogLevel) (fmt : InternedString) (args : List Arg) (tick : Nat)
deriving DecidableEq, Repr

/-- Effect of one operation: the successor state and the emitted events. -/
def step (st : LoggerState) : Op → LoggerState × List Event
  | .setLevel l => (setLevel st l, [])
  | .logCall level fmt args tick => (st, logEvents st level fmt args tick)

/-- Run a sequence of operations from a state, collecting all events. -/
def run (st : LoggerState) : List Op → LoggerState × List Event
  | [] => (st, [])
  | op :: rest =>
      let r := step st op
      let r2 := run r.1 rest
      (r2.1, r.2 ++ r2.2)

/-- Spec-side description of the single sink call produced by one
argument: scalars go to `appendData` with their raw bytes and size,
text goes to `appendString`. -/
def specArgEvent : Arg → Event
  | .scalar bytes => Event.appendData bytes bytes.length
  | .text s => Event.appendString s

/-- Recognizer for `startMessage` events. -/
def isStart : Event → Bool
  | .startMessage _ => true
  | _ => false

/-- Recognizer for `finishMessage` events. -/
def isFinish : Event → Bool
  | .finishMessage => true
  | _ => false

/-- Recognizer for tick-counter reads. -/
def isTick : Event → Bool
  | .tickRead _ => true
  | _ => false

/-- Bytes occupied by one interned literal: its characters plus the null
terminator appended by `operator ""_intern_*` (`InternedXString<C..., T{}>`). -/
def storageSize (s : String) : Nat := s.length + 1

/-- The distinct literal texts instantiated for one severity region, given
the program's log call sites as (severity, literal) pairs. Each distinct
character pack produces exactly one specialization of the per-severity
template (`InternedDebugString` etc.), hence one static array: the list is
deduplicated. -/
def regionTexts (sites : List (LogLevel × String)) (sev : LogLevel) : List String :=
  ((sites.filter (fun p => decide (p.1 = sev))).map Prod.snd).dedup

/-- Total size of one severity's storage region. -/
def regionSize (texts : List String) : Nat := (texts.map storageSize).sum

/-- Byte offset of a literal's storage inside its region: the sum of the
sizes of the arrays placed before its (unique) occurrence. -/
def offsetIn : List String → String → Nat
  | [], _ => 0
  | t :: rest, s => if t = s then 0 else storageSize t + offsetIn rest s

/-- The four interned-string sections in their image order
(`.interned_strings.debug`, `.info`, `.warning`, `.error`). -/
def severityOrder : List LogLevel := [.DEBUG, .INFO, .WARNING, .ERROR]

/-- Modelled from the spec: the linker script that assigns addresses to the
four `.interned_strings.*` sections is not part of src/. Following the
spec's description of four distinguishable per-severity regions, the model
lays the regions out consecutively in severity order, so each region's base
is the total size of the regions placed before it. -/
def regionBase (sites : List (LogLevel × String)) (sev : LogLevel) : Nat :=
  ((severityOrder.take sev.toNat).map (fun s => regionSize (regionTexts sites s))).sum

/-- Address of the static array backing one (severity, literal) pair: the
base of its severity's region plus its offset inside that region. This is
the pointer stored in the `InternedString` handle that
`operator ""_intern_*` returns. -/
def internHandle (sites : List (LogLevel × String)) (sev : LogLevel) (text : String) : Nat :=
  regionBase sites sev + offsetIn (regionTexts sites sev) text

/-- The handle produced at one concrete call site of the program. -/
def siteHandle (sites : List (LogLevel × String)) (k : Fin sites.length) : Nat :=
  internHandle sites (sites.get k).1 (sites.get k).2

/-- An address lies inside one severity's designated storage region. -/
def inRegion (sites : List (LogLevel × String)) (sev : LogLevel) (addr : Nat) : Prop :=
  regionBase sites sev ≤ addr ∧
    addr < regionBase sites sev + regionSize (regionTexts sites sev)

lemma mem_regionTexts (sites : List (LogLevel × String)) (sev : LogLevel)
    (text : String) (h : (sev, text) ∈ sites) : text ∈ regionTexts sites sev := by
  unfold regionTexts
  rw [List.mem_dedup]
  exact List.mem_map.mpr ⟨(sev, text), List.mem_filter.mpr ⟨h, by simp⟩, rfl⟩

lemma offsetIn_lt (texts : List String) (t : String) (h : t ∈ texts) :
    offsetIn texts t < regionSize texts := by
  induction texts with
  | nil => cases h
  | cons t0 rest ih =>
      by_cases h0 : t0 = t
      · simp [offsetIn, h0, regionSize, storageSize]
      · have ht : t ∈ rest := by
          rcases List.mem_cons.mp h with h1 | h1
          · exact absurd h1.symm h0
          · exact h1
        have := ih ht
        simp [offsetIn, h0, regionSize] at *
        omega

lemma serializeHandle_length (addr : Nat) : (serializeHandle addr).length = ptrSize := by
  simp [serializeHandle]

lemma sendArgument_eq (a : Arg) : sendArgument a = [specArgEvent a] := by
  cases a <;> rfl

lemma sendRemainingArguments_eq (first : Arg) (args : List Arg) :
    sendRemainingArguments first args = specArgEvent first :: args.map specArgEvent := by
  induction args generalizing first with
  | nil => simp [sendRemainingArguments, sendArgument_eq]
  | cons a rest ih => simp [sendRemainingArguments, sendArgument_eq, ih]

lemma logEvents_not_filtered (st : LoggerState) (level : LogLevel)
    (fmt : InternedString) (args : List Arg) (tick : Nat)
    (h : ¬ level.toNat < st.m_level.toNat) :
    logEvents st level fmt args tick =
      [Event.tickRead tick, Event.startMessage tick,
       Event.appendData (serializeHandle fmt.str) ptrSize]
      ++ args.map specArgEvent ++ [Event.finishMessage] := by
  simp [logEvents, h, sendRemainingArguments_eq, fmtArg, specArgEvent,
    serializeHandle_length]

lemma isStart_specArgEvent (a : Arg) : isStart (specArgEvent a) = false := by
  cases a <;> rfl

lemma isFinish_specArgEvent (a : Arg) : isFinish (specArgEvent a) = false := by
  cases a <;> rfl

lemma isTick_specArgEvent (a : Arg) : isTick (specArgEvent a) = false := by
  cases a <;> rfl

/-- Operations allowed between a `setLevel(OFF)` and the next threshold
change: `log` calls at severities strictly below OFF. -/
def isBelowOffLog : Op → Bool
  | .logCall lev _ _ _ => decide (lev.toNat < LogLevel.OFF.toNat)
  | .setLevel _ => false

lemma run_off_below (ops : List Op) (h : ops.all isBelowOffLog = true) :
    run ⟨LogLevel.OFF⟩ ops = (⟨LogLevel.OFF⟩, []) := by
  induction ops with
  | nil => rfl
  | cons op rest ih =>
      rw [List.all_cons, Bool.and_eq_true] at h
      cases op with
      | setLevel l => simp [isBelowOffLog] at h
      | logCall lev fmt args tick =>
          have hlev : lev.toNat < LogLevel.OFF.toNat := by
            have := h.1
            simpa [isBelowOffLog] using this
          simp [run, step, logEvents, LogLevel.toNat, ih h.2]
          simpa [LogLevel.toNat] using hlev

/-- Threshold value after a sequence of operations, starting from a given
value: the argument of the last `setLevel`, or the start value if none. -/
def threshAfter (l : LogLevel) : List Op → LogLevel
  | [] => l
  | Op.setLevel l2 :: rest => threshAfter l2 rest
  | Op.logCall _ _ _ _ :: rest => threshAfter l rest

/-- Example program call sites used to instantiate the interning theorems:
the literal text x occurs at two DEBUG call sites and one INFO call site. -/
def sitesExample : List (LogLevel × String) :=
  [(LogLevel.DEBUG, "x"), (LogLevel.INFO, "x"), (LogLevel.DEBUG, "x"), (LogLevel.ERROR, "z")]

/-- C1: a `log` call with severity strictly below the current threshold is
a no-op: no tick read, no sink call, and the logger state is unchanged. -/
theorem log_filtered_noop (st : LoggerState) (level : LogLevel)
    (fmt : InternedString) (args : List Arg) (tick : Nat)
    (h : level.toNat < st.m_level.toNat) :
    step st (Op.logCall level fmt args tick) = (st, []) := by
  simp [step, logEvents, h]

theorem log_filtered_noop_witness :
    LogLevel.DEBUG.toNat < (LoggerState.mk LogLevel.ERROR).m_level.toNat ∧
    step ⟨LogLevel.ERROR⟩ (Op.logCall LogLevel.DEBUG ⟨0⟩ [] 7) = (⟨LogLevel.ERROR⟩, []) :=
  ⟨by decide, log_filtered_noop ⟨LogLevel.ERROR⟩ LogLevel.DEBUG ⟨0⟩ [] 7 (by decide)⟩

/-- C2: a non-filtered `log` call sends, after `startMessage`, first the
interned-format handle via `appendData` with the pointer's fixed size, then
exactly one sink call per argument in left-to-right order: `appendData`
with raw bytes and static size for scalars, `appendString` for text. -/
theorem log_argument_order (st : LoggerState) (level : LogLevel)
    (fmt : InternedString) (args : List Arg) (tick : Nat)
    (h : ¬ level.toNat < st.m_level.toNat) :
    logEvents st level fmt args tick =
      [Event.tickRead tick, Event.startMessage tick,
       Event.appendData (serializeHandle fmt.str) ptrSize]
      ++ args.map specArgEvent ++ [Event.finishMessage] :=
  logEvents_not_filtered st level fmt args tick h

theorem log_argument_order_witness :
    (¬ LogLevel.ERROR.toNat < LoggerState.init.m_level.toNat) ∧
    logEvents LoggerState.init LogLevel.ERROR ⟨8⟩
        [Arg.scalar [42, 0, 0, 0], Arg.text "abc"] 5 =
      [Event.tickRead 5, Event.startMessage 5,
       Event.appendData (serializeHandle 8) ptrSize]
      ++ [Arg.scalar [42, 0, 0, 0], Arg.text "abc"].map specArgEvent
      ++ [Event.finishMessage] :=
  ⟨by decide,
   log_argument_order LoggerState.init LogLevel.ERROR ⟨8⟩
     [Arg.scalar [42, 0, 0, 0], Arg.text "abc"] 5 (by decide)⟩

/-- C3: a non-filtered `log` call produces exactly one `startMessage` and
one `finishMessage`, in that order (the span opens right after the single
tick read and closes at the end), the tick is read exactly once, at the
very start, and that tick value is the one passed to `startMessage`. -/
theorem log_single_span (st : LoggerState) (level : LogLevel)
    (fmt : InternedString) (args : List Arg) (tick : Nat)
    (h : ¬ level.toNat < st.m_level.toNat) :
    (logEvents st level fmt args tick).countP isStart = 1 ∧
    (logEvents st level fmt args tick).countP isFinish = 1 ∧
    (logEvents st level fmt args tick).countP isTick = 1 ∧
    (logEvents st level fmt args tick)[0]? = some (Event.tickRead tick) ∧
    (logEvents st level fmt args tick)[1]? = some (Event.startMessage tick) ∧
    (logEvents st level fmt args tick).getLast? = some Event.finishMessage := by
  rw [logEvents_not_filtered st level fmt args tick h]
  have hargs : ∀ p : Event → Bool, (∀ a : Arg, p (specArgEvent a) = false) →
      (args.map specArgEvent).countP p = 0 := by
    intro p hp
    exact List.countP_eq_zero.mpr (by
      intro e he
      rcases List.mem_map.mp he with ⟨a, _, rfl⟩
      simp [hp a])
  refine ⟨?_, ?_, ?_, ?_, ?_, ?_⟩
  · simp [List.countP_append, List.countP_cons, isStart,
      hargs isStart isStart_specArgEvent]
  · simp [List.countP_append, List.countP_cons, isFinish,
      hargs isFinish isFinish_specArgEvent]
  · simp [List.countP_append, List.countP_cons, isTick,
      hargs isTick isTick_specArgEvent]
  · rfl
  · rfl
  · exact List.getLast?_concat _

theorem log_single_span_witness :
    (¬ LogLevel.WARNING.toNat < LoggerState.init.m_level.toNat) ∧
    ((logEvents LoggerState.init LogLevel.WARNING ⟨3⟩ [Arg.text "abc"] 9).countP isStart = 1 ∧
     (logEvents LoggerState.init LogLevel.WARNING ⟨3⟩ [Arg.text "abc"] 9).countP isFinish = 1 ∧
     (logEvents LoggerState.init LogLevel.WARNING ⟨3⟩ [Arg.text "abc"] 9).countP isTick = 1 ∧
     (logEvents LoggerState.init LogLevel.WARNING ⟨3⟩ [Arg.text "abc"] 9)[0]? =
       some (Event.tickRead 9) ∧
     (logEvents LoggerState.init LogLevel.WARNING ⟨3⟩ [Arg.text "abc"] 9)[1]? =
       some (Event.startMessage 9) ∧
     (logEvents LoggerState.init LogLevel.WARNING ⟨3⟩ [Arg.text "abc"] 9).getLast? =
       some Event.finishMessage) :=
  ⟨by decide,
   log_single_span LoggerState.init LogLevel.WARNING ⟨3⟩ [Arg.text "abc"] 9 (by decide)⟩

/-- C4: two call sites of the program carrying the same (severity, literal)
pair resolve to identical handle values, and the literal's storage in its
severity's region is a single deduplicated location (it occurs exactly
once in the region). -/
theorem intern_same_text_same_severity (sites : List (LogLevel × String))
    (i j : Fin sites.length) (h : sites.get i = sites.get j) :
    siteHandle sites i = siteHandle sites j ∧
    (regionTexts sites (sites.get i).1).count (sites.get i).2 = 1 := by
  constructor
  · unfold siteHandle
    rw [h]
  · have hmem : ((sites.get i).1, (sites.get i).2) ∈ sites := by
      simp
    exact List.count_eq_one_of_mem (List.nodup_dedup _)
      (mem_regionTexts sites (sites.get i).1 (sites.get i).2 hmem)

theorem intern_same_text_same_severity_witness :
    sitesExample.get ⟨0, by decide⟩ = sitesExample.get ⟨2, by decide⟩ ∧
    (siteHandle sitesExample ⟨0, by decide⟩ = siteHandle sitesExample ⟨2, by decide⟩ ∧
     (regionTexts sitesExample (sitesExample.get ⟨0, by decide⟩).1).count
       (sitesExample.get ⟨0, by decide⟩).2 = 1) :=
  ⟨by decide,
   intern_same_text_same_severity sitesExample ⟨0, by decide⟩ ⟨2, by decide⟩ (by decide)⟩

/-- C5: the same literal text interned under two different (non-OFF)
severities yields two distinct handles, and each handle lies inside its own
severity's designated storage region. -/
theorem intern_distinct_severity_regions (sites : List (LogLevel × String))
    (s1 s2 : LogLevel) (text : String)
    (h1 : (s1, text) ∈ sites) (h2 : (s2, text) ∈ sites)
    (hne : s1 ≠ s2) (ho1 : s1 ≠ LogLevel.OFF) (ho2 : s2 ≠ LogLevel.OFF) :
    internHandle sites s1 text ≠ internHandle sites s2 text ∧
    inRegion sites s1 (internHandle sites s1 text) ∧
    inRegion sites s2 (internHandle sites s2 text) := by
  have hm1 := offsetIn_lt _ _ (mem_regionTexts sites s1 text h1)
  have hm2 := offsetIn_lt _ _ (mem_regionTexts sites s2 text h2)
  have hr1 : inRegion sites s1 (internHandle sites s1 text) := by
    unfold inRegion internHandle
    omega
  have hr2 : inRegion sites s2 (internHandle sites s2 text) := by
    unfold inRegion internHandle
    omega
  refine ⟨?_, hr1, hr2⟩
  unfold internHandle regionBase
  cases s1 <;> cases s2 <;>
    simp [severityOrder, LogLevel.toNat] at hne ho1 ho2 ⊢ <;>
    omega

theorem intern_distinct_severity_regions_witness :
    (LogLevel.DEBUG, "x") ∈ sitesExample ∧
    (LogLevel.INFO, "x") ∈ sitesExample ∧
    (internHandle sitesExample LogLevel.DEBUG "x" ≠ internHandle sitesExample LogLevel.INFO "x" ∧
     inRegion sitesExample LogLevel.DEBUG (internHandle sitesExample LogLevel.DEBUG "x") ∧
     inRegion sitesExample LogLevel.INFO (internHandle sitesExample LogLevel.INFO "x")) :=
  ⟨by decide, by decide,
   intern_distinct_severity_regions sitesExample LogLevel.DEBUG LogLevel.INFO "x"
     (by decide) (by decide) (by decide) (by decide) (by decide)⟩

/-- C6 counterexample: the claim quantifies over every severity, but a
direct `log` call at severity OFF is not filtered even when the threshold
is OFF (`OFF < OFF` is false), so it produces side effects. -/
theorem setLevel_off_counterexample :
    (run LoggerState.init
      [Op.setLevel LogLevel.OFF, Op.logCall LogLevel.OFF ⟨0⟩ [] 0]).2 ≠ [] := by
  decide

/-- C6 (amended to severities strictly below OFF): after `setLevel(OFF)`,
every subsequent `log` call at a severity strictly below OFF is filtered
(no events at all), for as long as the threshold is not changed again. -/
theorem setLevel_off_filters_all (st : LoggerState) (ops : List Op)
    (h : ops.all isBelowOffLog = true) :
    run st (Op.setLevel LogLevel.OFF :: ops) = (⟨LogLevel.OFF⟩, []) := by
  have hrest := run_off_below ops h
  simp [run, step, setLevel, hrest]

theorem setLevel_off_filters_all_witness :
    ([Op.logCall LogLevel.ERROR ⟨0⟩ [] 3,
      Op.logCall LogLevel.DEBUG ⟨1⟩ [Arg.text "a"] 4].all isBelowOffLog = true) ∧
    run LoggerState.init
      (Op.setLevel LogLevel.OFF ::
        [Op.logCall LogLevel.ERROR ⟨0⟩ [] 3,
         Op.logCall LogLevel.DEBUG ⟨1⟩ [Arg.text "a"] 4]) = (⟨LogLevel.OFF⟩, []) :=
  ⟨by decide,
   setLevel_off_filters_all LoggerState.init
     [Op.logCall LogLevel.ERROR ⟨0⟩ [] 3,
      Op.logCall LogLevel.DEBUG ⟨1⟩ [Arg.text "a"] 4] (by decide)⟩

/-- C7: `setLevel` stores the new threshold unconditionally (for every
prior state and every new value), emits no events, and every subsequent
`log` call is filtered exactly when its severity is below the new
threshold. -/
theorem setLevel_replaces_threshold (st : LoggerState) (l lev : LogLevel)
    (fmt : InternedString) (args : List Arg) (tick : Nat) :
    (step st (Op.setLevel l)).1.m_level = l ∧
    (step st (Op.setLevel l)).2 = [] ∧
    (logEvents (step st (Op.setLevel l)).1 lev fmt args tick = [] ↔
      lev.toNat < l.toNat) := by
  refine ⟨rfl, rfl, ?_⟩
  by_cases hc : lev.toNat < l.toNat <;> simp [step, setLevel, logEvents, hc]

/-- C8: a newly constructed logger has threshold DEBUG, so before any
`setLevel` call a `log` call at any non-OFF severity passes the filter and
produces a full record. -/
theorem default_threshold_debug (lev : LogLevel) (fmt : InternedString)
    (args : List Arg) (tick : Nat) (_h : lev ≠ LogLevel.OFF) :
    LoggerState.init.m_level = LogLevel.DEBUG ∧
    logEvents LoggerState.init lev fmt args tick =
      [Event.tickRead tick, Event.startMessage tick,
       Event.appendData (serializeHandle fmt.str) ptrSize]
      ++ args.map specArgEvent ++ [Event.finishMessage] := by
  refine ⟨rfl, logEvents_not_filtered _ _ _ _ _ ?_⟩
  simp [LoggerState.init, LogLevel.toNat]

theorem default_threshold_debug_witness :
    LogLevel.INFO ≠ LogLevel.OFF ∧
    (LoggerState.init.m_level = LogLevel.DEBUG ∧
     logEvents LoggerState.init LogLevel.INFO ⟨2⟩ [Arg.scalar [1]] 6 =
       [Event.tickRead 6, Event.startMessage 6,
        Event.appendData (serializeHandle 2) ptrSize]
       ++ [Arg.scalar [1]].map specArgEvent ++ [Event.finishMessage]) :=
  ⟨by decide, default_threshold_debug LogLevel.INFO ⟨2⟩ [Arg.scalar [1]] 6 (by decide)⟩

/-- C9: a direct `log` call at severity OFF is never filtered, whatever
the current threshold (OFF included), because the filter only skips when
the severity is strictly below the threshold and OFF is the maximum: the
call produces a full record. -/
theorem log_off_severity_never_filtered (st : LoggerState) (fmt : InternedString)
    (args : List Arg) (tick : Nat) :
    logEvents st LogLevel.OFF fmt args tick =
      [Event.tickRead tick, Event.startMessage tick,
       Event.appendData (serializeHandle fmt.str) ptrSize]
      ++ args.map specArgEvent ++ [Event.finishMessage] := by
  refine logEvents_not_filtered _ _ _ _ _ ?_
  cases st with
  | mk l => cases l <;> simp [LogLevel.toNat]

/-- C10: a `log` call never changes the logger state, so over any sequence
of operations the stored threshold equals the value of the most recent
`setLevel`, or the starting value (DEBUG for a fresh logger) if there was
none. -/
theorem threshold_only_changed_by_setLevel (st : LoggerState) (ops : List Op)
    (lev : LogLevel) (fmt : InternedString) (args : List Arg) (tick : Nat) :
    (step st (Op.logCall lev fmt args tick)).1 = st ∧
    (run st ops).1.m_level = threshAfter st.m_level ops := by
  refine ⟨rfl, ?_⟩
  induction ops generalizing st with
  | nil => rfl
  | cons op rest ih =>
      cases op with
      | setLevel l => simp [run, step, setLevel, threshAfter, ih]
      | logCall l f a t => simp [run, step, threshAfter, ih]

end DeferredLogging
